import Mathlib

/-!
Verification of the page-level encryption codec (crypto.c).

The embedding follows the source file: `codec_ctx`, `codec_page_hash`,
`codec_passphrase_hash`, `codec_cipher`, `sqlite3Codec`,
`sqlite3CodecAttach`, `sqlite3_key`, `sqlite3_rekey`.

Byte buffers are `List Nat` (each element one byte, < 256 where it
matters).  External library primitives that are not part of this
repository (the OpenSSL EVP digest and cipher, `sqlite3HexToBlob`,
`SQLITE_FILE_HEADER`, `HDR_SZ` from crypto.h) are modelled from the
spec, each marked in its doc comment.
-/

/-- A byte buffer: a list of bytes, each a `Nat`. -/
abbrev Bytes := List Nat

/-- Modelled from the spec: `HDR_SZ` comes from crypto.h (not under src/).
The spec and the source comment at the page-1 branch both fix the
cleartext header region of page 1 at 24 bytes. -/
def HDR_SZ : Nat := 24

/-- Modelled from the spec: `SQLITE_FILE_HEADER` is the fixed 16-byte
format-identifying string constant of the storage engine (not under
src/): the characters of the standard file-format magic followed by a
terminating zero byte. -/
def SQLITE_FILE_HEADER : Bytes :=
  [83, 81, 76, 105, 116, 101, 32, 102, 111, 114, 109, 97, 116, 32, 51, 0]

/-- Modelled from the spec: output length of the fixed external `DIGEST`
algorithm.  The source asserts that the digest output length equals the
cipher key length, so the model uses one consistent constant. -/
def DIGEST_LEN : Nat := 32

/-- Modelled from the spec: key length of the fixed external `CIPHER`
algorithm (`EVP_CIPHER_key_length(CIPHER)` in the source). -/
def EVP_CIPHER_key_length : Nat := 32

/-- One mixing step of the modelled digest. -/
def digestStep (h b : Nat) : Nat := (h * 131 + b + 17) % 4294967296

/-- Modelled from the spec: the external `DIGEST` function, a
deterministic hash from an arbitrary byte string to `DIGEST_LEN`
bytes.  Only determinism and the fixed output length matter to the
claims; the mixing itself is a stand-in for the external algorithm. -/
def DIGEST (data : Bytes) : Bytes :=
  (List.range DIGEST_LEN).map (fun i => (data.foldl digestStep (i + 7919)) % 256)

/-- `EVP_MD_CTX_init` / `EVP_DigestInit_ex`: a fresh digest context,
modelled as the empty accumulated input. -/
def EVP_DigestInit : Bytes := []

/-- `EVP_DigestUpdate`: append more input to the digest context. -/
def EVP_DigestUpdate (mdctx data : Bytes) : Bytes := mdctx ++ data

/-- `EVP_DigestFinal_ex`: hash everything accumulated so far. -/
def EVP_DigestFinal (mdctx : Bytes) : Bytes := DIGEST mdctx

/-- The page number serialized the way the source feeds it to the
digest: the raw `sizeof(Pgno) = 4` bytes of the 32-bit page number,
least significant byte first. -/
def pgnoBytes (pgno : Nat) : Bytes :=
  [pgno % 256, pgno / 256 % 256, pgno / 65536 % 256, pgno / 16777216 % 256]

/-- `codec_page_hash` (crypto.c lines 39-57): digest the salt bytes,
then the page number bytes, and finalize. -/
def codec_page_hash (pgno : Nat) (input : Bytes) : Bytes :=
  EVP_DigestFinal (EVP_DigestUpdate (EVP_DigestUpdate EVP_DigestInit input) (pgnoBytes pgno))

/-- `codec_passphrase_hash` (crypto.c lines 59-72): a single digest
pass over the raw passphrase bytes. -/
def codec_passphrase_hash (input : Bytes) : Bytes :=
  EVP_DigestFinal (EVP_DigestUpdate EVP_DigestInit input)

/-- Key mixing of the modelled block permutation: folds the key bytes
into a single byte value. -/
def CIPHER_key_mix (key : Bytes) : Nat :=
  key.foldl (fun a b => (a * 131 + b) % 256) 7

/-- Modelled from the spec: the external block cipher's forward
permutation (one block), at byte granularity. -/
def CIPHER_block_enc (key : Bytes) (b : Nat) : Nat :=
  (b + CIPHER_key_mix key) % 256

/-- Modelled from the spec: the external block cipher's inverse
permutation (one block), at byte granularity. -/
def CIPHER_block_dec (key : Bytes) (c : Nat) : Nat :=
  (c + (256 - CIPHER_key_mix key)) % 256

/-- CBC encryption chain: each block is xor-ed with the previous
ciphertext block (the IV for the first) and then enciphered. -/
def cbc_encrypt (key : Bytes) : Nat → Bytes → Bytes
  | _, [] => []
  | prev, b :: bs =>
    let c := CIPHER_block_enc key (Nat.xor b prev)
    c :: cbc_encrypt key c bs

/-- CBC decryption chain: each block is deciphered and xor-ed with the
previous ciphertext block (the IV for the first). -/
def cbc_decrypt (key : Bytes) : Nat → Bytes → Bytes
  | _, [] => []
  | prev, c :: cs => Nat.xor (CIPHER_block_dec key c) prev :: cbc_decrypt key c cs

/-- Reduce an IV byte string to the initial chaining value of the
modelled CBC chain. -/
def ivInit (iv : Bytes) : Nat :=
  iv.foldl (fun a b => (a * 131 + b) % 256) 11

/-- Modelled from the spec: the external EVP cipher transform
(`EVP_CipherInit` / `EVP_CipherUpdate` / `EVP_CipherFinal` with padding
disabled): CBC mode, length preserving, `mode = 1` encrypts and
`mode = 0` decrypts. -/
def EVP_Cipher (mode : Nat) (key iv data : Bytes) : Bytes :=
  if mode = 1 then cbc_encrypt key (ivInit iv) data
  else cbc_decrypt key (ivInit iv) data

/-- Overwrite `src.length` bytes of `dst` starting at offset `off`:
the embedding of `memcpy(dst + off, src, src.length)`. -/
def writeAt (dst : Bytes) (off : Nat) (src : Bytes) : Bytes :=
  dst.take off ++ src ++ dst.drop (off + src.length)

/-- The underlying paged store (`Btree`): the codec only queries its
page size; its pages are carried so that claims about on-disk content
can be stated. -/
structure Btree where
  pageSize : Nat
  pages : List Bytes
deriving Repr, DecidableEq

/-- `sqlite3BtreeGetPageSize`. -/
def sqlite3BtreeGetPageSize (pBt : Btree) : Nat := pBt.pageSize

/-- `codec_ctx` (crypto.c lines 30-37): the per-database codec state.
`rand` is the 16-byte salt buffer, `buffer` the page-sized scratch
buffer. -/
structure codec_ctx where
  key_sz : Nat
  pBt : Btree
  key : Bytes
  rand : Bytes
  buffer : Bytes
deriving Repr, DecidableEq

/-- `codec_cipher` (crypto.c lines 82-103): derive the IV from the
16-byte salt and the page number, then run the EVP cipher transform
over the data (`mode = 1` encrypt, `mode = 0` decrypt). -/
def codec_cipher (ctx : codec_ctx) (pgno : Nat) (mode : Nat) (data : Bytes) : Bytes :=
  let iv := codec_page_hash pgno (ctx.rand.take 16)
  EVP_Cipher mode ctx.key iv data

/-- Which buffer `sqlite3Codec` returns: the context's scratch buffer
or the caller's page buffer. -/
inductive RetBuf where
  | scratch
  | caller
deriving Repr, DecidableEq

/-- The observable outcome of one `sqlite3Codec` call: the context
after the call (scratch buffer and salt may change), the caller's page
buffer after the call, and which of the two is returned. -/
structure CodecResult where
  ctx : codec_ctx
  pData : Bytes
  ret : RetBuf
deriving Repr, DecidableEq

/-- The `switch(mode)` of `sqlite3Codec` (crypto.c lines 117-130):
modes 0, 2, 3 select decrypt (`emode = 0`), modes 6, 7 select encrypt
(`emode = 1`), every other mode falls through to `return pData`. -/
def emodeOf (mode : Nat) : Option Nat :=
  if mode = 0 ∨ mode = 2 ∨ mode = 3 then some 0
  else if mode = 6 ∨ mode = 7 then some 1
  else none

/-- The page-1 header handling of `sqlite3Codec` (crypto.c lines
132-144): copy the first `HDR_SZ` bytes of the input into the scratch
buffer; then on encrypt overwrite scratch bytes 0-15 with the salt,
on decrypt read the salt out of the input's bytes 0-15 and overwrite
scratch bytes 0-15 with the fixed file header. -/
def codecPage1Header (ctx : codec_ctx) (pData : Bytes) (emode : Nat) : codec_ctx :=
  let buf0 := writeAt ctx.buffer 0 (pData.take HDR_SZ)
  if emode = 1 then
    { ctx with buffer := writeAt buf0 0 (ctx.rand.take 16) }
  else
    { ctx with
      rand := pData.take 16,
      buffer := writeAt buf0 0 (SQLITE_FILE_HEADER.take 16) }

/-- `sqlite3Codec` (crypto.c lines 112-158): the per-page transform
entry point. -/
def sqlite3Codec (ctx : codec_ctx) (pData : Bytes) (pgno : Nat) (mode : Nat) : CodecResult :=
  let pg_sz := sqlite3BtreeGetPageSize ctx.pBt
  match emodeOf mode with
  | none => { ctx := ctx, pData := pData, ret := RetBuf.caller }
  | some emode =>
    let ctx2 :=
      if pgno = 1 then
        let ctx1 := codecPage1Header ctx pData emode
        { ctx1 with
          buffer := writeAt ctx1.buffer HDR_SZ
            (codec_cipher ctx1 pgno emode ((pData.drop HDR_SZ).take (pg_sz - HDR_SZ))) }
      else
        { ctx with buffer := writeAt ctx.buffer 0 (codec_cipher ctx pgno emode (pData.take pg_sz)) }
    if emode = 1 then
      { ctx := ctx2, pData := pData, ret := RetBuf.scratch }
    else
      { ctx := ctx2, pData := writeAt pData 0 (ctx2.buffer.take pg_sz), ret := RetBuf.caller }

/-- One attached database slot (`struct Db`): the btree handle and the
pager's codec slot (`sqlite3pager_set_codec` stores the codec context
there; `none` means no codec attached). -/
structure Db where
  pBt : Option Btree
  pagerCodec : Option codec_ctx
deriving Repr, DecidableEq

/-- A connection (`sqlite3`): its array of attached databases. -/
structure sqlite3 where
  aDb : List Db
deriving Repr, DecidableEq

/-- The error taxonomy of the spec for the attach path.  The source
reports the wrong-key-length condition through an `assert`; the
embedding turns that failed assertion into `InvalidKeyFormat`. -/
inductive CodecError where
  | InvalidKeyFormat
  | AlreadyAttached
  | AllocationFailure
deriving Repr, DecidableEq

/-- Modelled from the spec: `sqlite3HexToInt` (storage-engine utility,
not under src/): the value of one hex digit character. -/
def sqlite3HexToInt (h : Nat) : Nat :=
  if 48 ≤ h ∧ h ≤ 57 then h - 48
  else if 97 ≤ h ∧ h ≤ 102 then h - 87
  else if 65 ≤ h ∧ h ≤ 70 then h - 55
  else 0

/-- Modelled from the spec: `sqlite3HexToBlob` (storage-engine utility,
not under src/): hex-decode `n` digit characters of `z` into
`n / 2` bytes, consuming the digits in pairs. -/
def sqlite3HexToBlob (z : Bytes) (n : Nat) : Bytes :=
  (List.range (n / 2)).map
    (fun i => 16 * sqlite3HexToInt (z.getD (2 * i) 0) + sqlite3HexToInt (z.getD (2 * i + 1) 0))

/-- `sqlite3StrNICmp(zKey, "x'", 2) == 0`: the credential starts with
the two-character blob-literal marker, the letter case-insensitively. -/
def isHexKeyMarker (zKey : Bytes) : Bool :=
  (zKey.getD 0 0 == 120 || zKey.getD 0 0 == 88) && zKey.getD 1 0 == 39

/-- Store a freshly built codec context for slot `nDb`
(`sqlite3pager_set_codec`): the context gets the btree handle, the
derived key, 16 bytes of fresh entropy as the salt, and a zeroed
page-sized scratch buffer. -/
def setCodec (db : sqlite3) (nDb : Nat) (pDb : Db) (pBt : Btree)
    (key : Bytes) (key_sz : Nat) (entropy : Bytes) : sqlite3 :=
  let ctx : codec_ctx :=
    { key_sz := key_sz, pBt := pBt, key := key,
      rand := entropy.take 16,
      buffer := List.replicate (sqlite3BtreeGetPageSize pBt) 0 }
  { db with aDb := db.aDb.set nDb { pDb with pagerCodec := some ctx } }

/-- `sqlite3CodecAttach` (crypto.c lines 160-208).  `entropy` stands
for the bytes `RAND_pseudo_bytes` would produce.  The source's
`assert((n/2) == ctx->key_sz)` (hex path) and
`assert(key_sz == ctx->key_sz)` (passphrase path) become
`InvalidKeyFormat` errors. -/
def sqlite3CodecAttach (entropy : Bytes) (db : sqlite3) (nDb : Nat)
    (zKey : Bytes) (nKey : Nat) : Except CodecError sqlite3 :=
  match db.aDb.get? nDb with
  | none => Except.ok db
  | some pDb =>
    match pDb.pBt with
    | none => Except.ok db
    | some pBt =>
      if nKey = 0 ∨ zKey = [] then Except.ok db
      else
        let key_sz := EVP_CIPHER_key_length
        if isHexKeyMarker zKey then
          let n := nKey - 3
          if n / 2 = key_sz then
            Except.ok (setCodec db nDb pDb pBt (sqlite3HexToBlob (zKey.drop 2) n) key_sz entropy)
          else
            Except.error CodecError.InvalidKeyFormat
        else
          let key := codec_passphrase_hash (zKey.take nKey)
          if key.length = key_sz then
            Except.ok (setCodec db nDb pDb pBt key key_sz entropy)
          else
            Except.error CodecError.InvalidKeyFormat

/-- One iteration of the `sqlite3_key` loop: attempt an attach on slot
`i`; the C caller ignores the result, so a failed attach leaves the
connection as it was. -/
def keyStep (entropy zKey : Bytes) (nKey : Nat) (db : sqlite3) (i : Nat) : sqlite3 :=
  match sqlite3CodecAttach entropy db i zKey nKey with
  | Except.ok db2 => db2
  | Except.error _ => db

/-- `sqlite3_key` (crypto.c lines 214-221): attach a codec with the
given credential to every database slot of the connection. -/
def sqlite3_key (entropy : Bytes) (db : sqlite3) (zKey : Bytes) (nKey : Nat) : sqlite3 :=
  (List.range db.aDb.length).foldl (keyStep entropy zKey nKey) db

/-- `sqlite3_rekey` (crypto.c lines 224-227): prints a notice and then
just calls `sqlite3_key`; no page is read, decrypted, re-encrypted or
written. -/
def sqlite3_rekey (entropy : Bytes) (db : sqlite3) (zKey : Bytes) (nKey : Nat) : sqlite3 :=
  sqlite3_key entropy db zKey nKey

/-- Concrete test fixture: a btree with page size 32 and no pages. -/
def btA : Btree := { pageSize := 32, pages := [] }

/-- Concrete test fixture: a codec context for `btA`. -/
def ctxA : codec_ctx :=
  { key_sz := 32, pBt := btA, key := List.replicate 32 9,
    rand := List.replicate 16 5, buffer := List.replicate 32 0 }

/-- Concrete test fixture: a 32-byte page holding bytes 0..31. -/
def pageA : Bytes := List.range 32

/-- Concrete test fixture: `pageA` with byte 16 replaced. -/
def pageB : Bytes := pageA.set 16 200

/-- Concrete test fixture: a 32-byte page of sevens (its first 16
bytes differ from `pageA`'s). -/
def pageE : Bytes := List.replicate 32 7

/-- Concrete test fixture: a database slot with a btree and no codec. -/
def dbSlotA : Db := { pBt := some btA, pagerCodec := none }

/-- Concrete test fixture: a connection with the single slot `dbSlotA`. -/
def dbA : sqlite3 := { aDb := [dbSlotA] }

/-- Concrete test fixture: a database slot that already has the codec
context `ctxA` attached. -/
def dbSlotB : Db := { pBt := some btA, pagerCodec := some ctxA }

/-- Concrete test fixture: a connection whose single slot already has
a codec attached. -/
def dbB : sqlite3 := { aDb := [dbSlotB] }

/-- Concrete test fixture: 16 bytes of entropy for attach calls. -/
def entA : Bytes := List.replicate 16 3

/-- Concrete test fixture: a blob-literal credential with 65 hex
digits (an odd count, one more than `2 * EVP_CIPHER_key_length`). -/
def hexKey65 : Bytes := [120, 39] ++ List.replicate 65 97 ++ [39]

/-- Concrete test fixture: a blob-literal credential with the exact
64 hex digits. -/
def hexKey64 : Bytes := [120, 39] ++ List.replicate 64 98 ++ [39]

theorem CIPHER_key_mix_lt (key : Bytes) : CIPHER_key_mix key < 256 := by
  unfold CIPHER_key_mix
  induction key using List.reverseRecOn with
  | nil => decide
  | append_singleton l b _ =>
    rw [List.foldl_append]
    simp only [List.foldl_cons, List.foldl_nil]
    omega

theorem CIPHER_block_dec_enc (key : Bytes) (b : Nat) (hb : b < 256) :
    CIPHER_block_dec key (CIPHER_block_enc key b) = b := by
  unfold CIPHER_block_dec CIPHER_block_enc
  have h := CIPHER_key_mix_lt key
  omega

theorem CIPHER_block_enc_lt (key : Bytes) (b : Nat) : CIPHER_block_enc key b < 256 := by
  unfold CIPHER_block_enc
  omega

theorem xor_lt_256 (a b : Nat) (ha : a < 256) (hb : b < 256) : Nat.xor a b < 256 := by
  have h : (256 : Nat) = 2 ^ 8 := by norm_num
  rw [h] at ha hb ⊢
  exact Nat.xor_lt_two_pow ha hb

theorem xor_xor_cancel (a b : Nat) : Nat.xor (Nat.xor a b) b = a := by
  show a ^^^ b ^^^ b = a
  rw [Nat.xor_assoc, Nat.xor_self, Nat.xor_zero]

theorem cbc_decrypt_encrypt (key : Bytes) (p : Bytes) :
    ∀ prev, prev < 256 → (∀ b ∈ p, b < 256) →
      cbc_decrypt key prev (cbc_encrypt key prev p) = p := by
  induction p with
  | nil => intro prev _ _; rfl
  | cons b bs ih =>
    intro prev hprev hp
    have hb : b < 256 := hp b (List.mem_cons_self b bs)
    have hbs : ∀ x ∈ bs, x < 256 := fun x hx => hp x (List.mem_cons_of_mem b hx)
    show cbc_decrypt key prev
        (CIPHER_block_enc key (Nat.xor b prev) ::
          cbc_encrypt key (CIPHER_block_enc key (Nat.xor b prev)) bs) = b :: bs
    show Nat.xor (CIPHER_block_dec key (CIPHER_block_enc key (Nat.xor b prev))) prev ::
        cbc_decrypt key (CIPHER_block_enc key (Nat.xor b prev))
          (cbc_encrypt key (CIPHER_block_enc key (Nat.xor b prev)) bs) = b :: bs
    rw [CIPHER_block_dec_enc key _ (xor_lt_256 b prev hb hprev)]
    rw [xor_xor_cancel]
    rw [ih _ (CIPHER_block_enc_lt key _) hbs]

theorem ivInit_lt (iv : Bytes) : ivInit iv < 256 := by
  unfold ivInit
  induction iv using List.reverseRecOn with
  | nil => decide
  | append_singleton l b _ =>
    rw [List.foldl_append]
    simp only [List.foldl_cons, List.foldl_nil]
    omega

theorem cbc_encrypt_length (key : Bytes) (p : Bytes) :
    ∀ prev, (cbc_encrypt key prev p).length = p.length := by
  induction p with
  | nil => intro prev; rfl
  | cons b bs ih =>
    intro prev
    show (CIPHER_block_enc key (Nat.xor b prev) ::
        cbc_encrypt key (CIPHER_block_enc key (Nat.xor b prev)) bs).length = bs.length + 1
    simp [ih]

theorem cbc_decrypt_length (key : Bytes) (c : Bytes) :
    ∀ prev, (cbc_decrypt key prev c).length = c.length := by
  induction c with
  | nil => intro prev; rfl
  | cons b bs ih =>
    intro prev
    show (Nat.xor (CIPHER_block_dec key b) prev :: cbc_decrypt key b bs).length = bs.length + 1
    simp [ih]

theorem EVP_Cipher_length (mode : Nat) (key iv data : Bytes) :
    (EVP_Cipher mode key iv data).length = data.length := by
  unfold EVP_Cipher
  by_cases h : mode = 1 <;> simp [h, cbc_encrypt_length, cbc_decrypt_length]

theorem SFH_take_16 : SQLITE_FILE_HEADER.take 16 = SQLITE_FILE_HEADER := by decide

theorem SFH_length : SQLITE_FILE_HEADER.length = 16 := by decide

theorem length_codec_cipher (ctx : codec_ctx) (pgno mode : Nat) (data : Bytes) :
    (codec_cipher ctx pgno mode data).length = data.length := by
  simp [codec_cipher, EVP_Cipher_length]

theorem emodeOf_cases (mode e : Nat) (h : emodeOf mode = some e) : e = 0 ∨ e = 1 := by
  unfold emodeOf at h
  split at h
  · exact Or.inl (Option.some.inj h).symm
  · split at h
    · exact Or.inr (Option.some.inj h).symm
    · cases h

/-- C10: for every mode value outside 0, 2, 3, 6, 7 the per-page
transform returns the caller's buffer unchanged, with no cipher
operation and no mutation of the context or the buffer contents;
modes 2 and 3 behave exactly as decrypt mode 0, and mode 7 exactly as
encrypt mode 6. -/
theorem sqlite3Codec_mode_dispatch (ctx : codec_ctx) (pData : Bytes) (pgno mode : Nat)
    (h : mode ≠ 0 ∧ mode ≠ 2 ∧ mode ≠ 3 ∧ mode ≠ 6 ∧ mode ≠ 7) :
    sqlite3Codec ctx pData pgno mode = { ctx := ctx, pData := pData, ret := RetBuf.caller } ∧
    sqlite3Codec ctx pData pgno 2 = sqlite3Codec ctx pData pgno 0 ∧
    sqlite3Codec ctx pData pgno 3 = sqlite3Codec ctx pData pgno 0 ∧
    sqlite3Codec ctx pData pgno 7 = sqlite3Codec ctx pData pgno 6 := by
  obtain ⟨h0, h2, h3, h6, h7⟩ := h
  refine ⟨?_, rfl, rfl, rfl⟩
  simp [sqlite3Codec, emodeOf, h0, h2, h3, h6, h7]

/-- C10 witness: mode 4 at a concrete context and page is an identity
with the caller's buffer returned, and modes 2, 3, 7 agree with their
canonical counterparts there. -/
theorem sqlite3Codec_mode_dispatch_witness :
    sqlite3Codec ctxA pageA 1 4 = { ctx := ctxA, pData := pageA, ret := RetBuf.caller } ∧
    sqlite3Codec ctxA pageA 1 2 = sqlite3Codec ctxA pageA 1 0 ∧
    sqlite3Codec ctxA pageA 1 3 = sqlite3Codec ctxA pageA 1 0 ∧
    sqlite3Codec ctxA pageA 1 7 = sqlite3Codec ctxA pageA 1 6 :=
  sqlite3Codec_mode_dispatch ctxA pageA 1 4 (by decide)

/-- C5: the per-page IV is the digest of the salt followed by the
fixed-width page-number bytes; the derivation is deterministic (equal
salt and page number give an equal IV), and `codec_cipher` feeds
exactly this IV to the cipher transform. -/
theorem codec_page_hash_spec (salt : Bytes) (pgno : Nat) (salt2 : Bytes) (pgno2 : Nat)
    (ctx : codec_ctx) (mode : Nat) (data : Bytes)
    (hs : salt2 = salt) (hn : pgno2 = pgno) :
    codec_page_hash pgno salt = DIGEST (salt ++ pgnoBytes pgno) ∧
    codec_page_hash pgno2 salt2 = codec_page_hash pgno salt ∧
    codec_cipher ctx pgno mode data =
      EVP_Cipher mode ctx.key (codec_page_hash pgno (ctx.rand.take 16)) data := by
  subst hs
  subst hn
  refine ⟨?_, rfl, rfl⟩
  simp [codec_page_hash, EVP_DigestFinal, EVP_DigestUpdate, EVP_DigestInit]

/-- C5 witness: the IV identities at a concrete salt, page number,
context and payload. -/
theorem codec_page_hash_spec_witness :
    codec_page_hash 1 entA = DIGEST (entA ++ pgnoBytes 1) ∧
    codec_page_hash 1 entA = codec_page_hash 1 entA ∧
    codec_cipher ctxA 1 1 pageA =
      EVP_Cipher 1 ctxA.key (codec_page_hash 1 (ctxA.rand.take 16)) pageA :=
  codec_page_hash_spec entA 1 entA 1 ctxA 1 pageA rfl rfl

/-- C3: for every key, IV and payload of in-range bytes, running the
page cipher in decrypt mode on the result of running it in encrypt
mode with the same key and IV returns the payload exactly. -/
theorem EVP_Cipher_roundtrip (key iv p : Bytes) (hp : ∀ b ∈ p, b < 256) :
    EVP_Cipher 0 key iv (EVP_Cipher 1 key iv p) = p := by
  have h := cbc_decrypt_encrypt key p (ivInit iv) (ivInit_lt iv) hp
  simpa [EVP_Cipher] using h

/-- C3 witness: the round trip at a concrete key, IV and 32-byte
payload. -/
theorem EVP_Cipher_roundtrip_witness :
    EVP_Cipher 0 (List.replicate 32 9) entA
      (EVP_Cipher 1 (List.replicate 32 9) entA pageA) = pageA :=
  EVP_Cipher_roundtrip (List.replicate 32 9) entA pageA (by decide)

/-- C8 counterexample: after a completed page-1 decrypt, a second
page-1 decrypt whose input starts with different bytes changes
`ctx.rand` again, so the salt is not immutable after the first
successful page-1 transform. -/
theorem sqlite3Codec_salt_immutable_cex :
    (sqlite3Codec (sqlite3Codec ctxA pageA 1 0).ctx pageE 1 0).ctx.rand ≠
      (sqlite3Codec ctxA pageA 1 0).ctx.rand := by decide

/-- C8 (amended): `ctx.rand` is overwritten with bytes 0-15 of the
input on every page-1 decrypt call; every other transform call (any
other page number, or any encrypt or unknown mode) leaves it
unchanged.  The salt is therefore stable only while every page-1
decrypt presents the same first 16 bytes. -/
theorem sqlite3Codec_rand_update (ctx : codec_ctx) (pData : Bytes) (pgno mode : Nat) :
    (sqlite3Codec ctx pData pgno mode).ctx.rand =
      if emodeOf mode = some 0 ∧ pgno = 1 then pData.take 16 else ctx.rand := by
  unfold sqlite3Codec
  cases he : emodeOf mode with
  | none => simp [he]
  | some e =>
    rcases emodeOf_cases mode e he with rfl | rfl <;>
      by_cases hp : pgno = 1 <;>
        simp [he, hp, codecPage1Header]

theorem length_writeAt (dst : Bytes) (off : Nat) (src : Bytes) :
    (writeAt dst off src).length =
      min off dst.length + src.length + (dst.length - (off + src.length)) := by
  simp [writeAt]
  omega

theorem length_codec_buffer (ctx : codec_ctx) (pData : Bytes) (pgno mode e : Nat)
    (he : emodeOf mode = some e)
    (hbuf : ctx.buffer.length = sqlite3BtreeGetPageSize ctx.pBt)
    (hlen : pData.length = sqlite3BtreeGetPageSize ctx.pBt)
    (hrand : ctx.rand.length = 16)
    (hpg : HDR_SZ ≤ sqlite3BtreeGetPageSize ctx.pBt) :
    (sqlite3Codec ctx pData pgno mode).ctx.buffer.length = sqlite3BtreeGetPageSize ctx.pBt := by
  have hpg24 : 24 ≤ sqlite3BtreeGetPageSize ctx.pBt := hpg
  unfold sqlite3Codec
  rw [he]
  by_cases hp : pgno = 1 <;> by_cases he1 : e = 1 <;>
    simp [hp, he1, codecPage1Header, length_writeAt, length_codec_cipher,
      SFH_take_16, SFH_length, HDR_SZ, hbuf, hlen, hrand] <;>
    omega

theorem sqlite3Codec_decrypt_parts (ctx : codec_ctx) (pData : Bytes) (pgno mode : Nat)
    (he : emodeOf mode = some 0) :
    (sqlite3Codec ctx pData pgno mode).ret = RetBuf.caller ∧
    (sqlite3Codec ctx pData pgno mode).pData =
      writeAt pData 0
        ((sqlite3Codec ctx pData pgno mode).ctx.buffer.take (sqlite3BtreeGetPageSize ctx.pBt)) := by
  unfold sqlite3Codec
  rw [he]
  by_cases hp : pgno = 1 <;> simp [hp]

theorem sqlite3Codec_encrypt_parts (ctx : codec_ctx) (pData : Bytes) (pgno mode : Nat)
    (he : emodeOf mode = some 1) :
    (sqlite3Codec ctx pData pgno mode).ret = RetBuf.scratch ∧
    (sqlite3Codec ctx pData pgno mode).pData = pData := by
  unfold sqlite3Codec
  rw [he]
  by_cases hp : pgno = 1 <;> simp [hp]

/-- C4: an encrypt call returns the context's scratch buffer and
leaves the caller's page buffer byte-for-byte unchanged; a decrypt
call copies the scratch buffer's result back into the caller's buffer
and returns that buffer, now equal to the scratch result. -/
theorem sqlite3Codec_return_convention (ctx : codec_ctx) (pData : Bytes) (pgno em dm : Nat)
    (hem : em = 6 ∨ em = 7) (hdm : dm = 0 ∨ dm = 2 ∨ dm = 3)
    (hbuf : ctx.buffer.length = sqlite3BtreeGetPageSize ctx.pBt)
    (hlen : pData.length = sqlite3BtreeGetPageSize ctx.pBt)
    (hrand : ctx.rand.length = 16)
    (hpg : HDR_SZ ≤ sqlite3BtreeGetPageSize ctx.pBt) :
    (sqlite3Codec ctx pData pgno em).ret = RetBuf.scratch ∧
    (sqlite3Codec ctx pData pgno em).pData = pData ∧
    (sqlite3Codec ctx pData pgno dm).ret = RetBuf.caller ∧
    (sqlite3Codec ctx pData pgno dm).pData = (sqlite3Codec ctx pData pgno dm).ctx.buffer := by
  have heme : emodeOf em = some 1 := by rcases hem with rfl | rfl <;> rfl
  have hdme : emodeOf dm = some 0 := by rcases hdm with rfl | rfl | rfl <;> rfl
  obtain ⟨her, hep⟩ := sqlite3Codec_encrypt_parts ctx pData pgno em heme
  obtain ⟨hdr, hdp⟩ := sqlite3Codec_decrypt_parts ctx pData pgno dm hdme
  have hL := length_codec_buffer ctx pData pgno dm 0 hdme hbuf hlen hrand hpg
  refine ⟨her, hep, hdr, ?_⟩
  rw [hdp, List.take_of_length_le (le_of_eq hL)]
  unfold writeAt
  simp only [List.take_zero, List.nil_append, Nat.zero_add]
  rw [List.drop_eq_nil_of_le (by omega), List.append_nil]

/-- C4 witness: both conventions at a concrete context and page
(encrypt mode 6 and decrypt mode 0, page 2). -/
theorem sqlite3Codec_return_convention_witness :
    (sqlite3Codec ctxA pageA 2 6).ret = RetBuf.scratch ∧
    (sqlite3Codec ctxA pageA 2 6).pData = pageA ∧
    (sqlite3Codec ctxA pageA 2 0).ret = RetBuf.caller ∧
    (sqlite3Codec ctxA pageA 2 0).pData = (sqlite3Codec ctxA pageA 2 0).ctx.buffer :=
  sqlite3Codec_return_convention ctxA pageA 2 6 0 (Or.inl rfl) (Or.inl rfl)
    (by decide) (by decide) (by decide) (by decide)

theorem page1_decrypt_buffer (ctx : codec_ctx) (pData : Bytes)
    (hbuf : ctx.buffer.length = sqlite3BtreeGetPageSize ctx.pBt)
    (hlen : pData.length = sqlite3BtreeGetPageSize ctx.pBt)
    (hpg : HDR_SZ ≤ sqlite3BtreeGetPageSize ctx.pBt) :
    (sqlite3Codec ctx pData 1 0).ctx.buffer =
      SQLITE_FILE_HEADER ++ (pData.drop 16).take 8 ++
        EVP_Cipher 0 ctx.key (codec_page_hash 1 (pData.take 16)) (pData.drop 24) := by
  have hpg24 : 24 ≤ sqlite3BtreeGetPageSize ctx.pBt := hpg
  have hplen : 24 ≤ pData.length := by omega
  have h24 : (pData.take 24).length = 24 := by rw [List.length_take]; omega
  simp only [sqlite3Codec, emodeOf, codecPage1Header, codec_cipher, HDR_SZ]
  norm_num
  rw [List.take_take]
  norm_num
  have hinput : List.take (sqlite3BtreeGetPageSize ctx.pBt - 24) (List.drop 24 pData) =
      List.drop 24 pData :=
    List.take_of_length_le (by rw [List.length_drop]; omega)
  rw [hinput]
  have hbuf0 : writeAt ctx.buffer 0 (List.take 24 pData) =
      List.take 24 pData ++ List.drop 24 ctx.buffer := by
    unfold writeAt
    rw [h24]
    simp
  rw [hbuf0]
  have hbuf1 : writeAt (List.take 24 pData ++ List.drop 24 ctx.buffer) 0 (List.take 16 SQLITE_FILE_HEADER) =
      SQLITE_FILE_HEADER ++ (List.take 8 (List.drop 16 pData) ++ List.drop 24 ctx.buffer) := by
    unfold writeAt
    rw [SFH_take_16, SFH_length]
    simp only [List.take_zero, List.nil_append, Nat.zero_add]
    rw [List.drop_append_of_le_length (by omega)]
    rw [List.drop_take]
  rw [hbuf1]
  have hcolen : (EVP_Cipher 0 ctx.key (codec_page_hash 1 (List.take 16 pData)) (List.drop 24 pData)).length =
      sqlite3BtreeGetPageSize ctx.pBt - 24 := by
    rw [EVP_Cipher_length, List.length_drop]
    omega
  have hmid : (List.take 8 (List.drop 16 pData)).length = 8 := by
    rw [List.length_take, List.length_drop]
    omega
  have h1 : (SQLITE_FILE_HEADER ++ List.take 8 (List.drop 16 pData)).length = 24 := by
    rw [List.length_append, SFH_length, hmid]
  unfold writeAt
  rw [← List.append_assoc]
  rw [hcolen]
  have h2 : List.take 24 ((SQLITE_FILE_HEADER ++ List.take 8 (List.drop 16 pData)) ++ List.drop 24 ctx.buffer) =
      SQLITE_FILE_HEADER ++ List.take 8 (List.drop 16 pData) := by
    rw [List.take_append_of_le_length (le_of_eq h1.symm)]
    exact List.take_of_length_le (le_of_eq h1)
  have h3 : List.drop (24 + (sqlite3BtreeGetPageSize ctx.pBt - 24))
      ((SQLITE_FILE_HEADER ++ List.take 8 (List.drop 16 pData)) ++ List.drop 24 ctx.buffer) = [] := by
    apply List.drop_eq_nil_of_le
    rw [List.length_append, h1, List.length_drop]
    omega
  rw [h2, h3, List.append_nil, List.append_assoc]

theorem page1_encrypt_buffer (ctx : codec_ctx) (pData : Bytes)
    (hbuf : ctx.buffer.length = sqlite3BtreeGetPageSize ctx.pBt)
    (hlen : pData.length = sqlite3BtreeGetPageSize ctx.pBt)
    (hrand : ctx.rand.length = 16)
    (hpg : HDR_SZ ≤ sqlite3BtreeGetPageSize ctx.pBt) :
    (sqlite3Codec ctx pData 1 6).ctx.buffer =
      ctx.rand ++ (pData.drop 16).take 8 ++
        EVP_Cipher 1 ctx.key (codec_page_hash 1 ctx.rand) (pData.drop 24) := by
  have hpg24 : 24 ≤ sqlite3BtreeGetPageSize ctx.pBt := hpg
  have hplen : 24 ≤ pData.length := by omega
  have h24 : (pData.take 24).length = 24 := by rw [List.length_take]; omega
  have hrtake : ctx.rand.take 16 = ctx.rand := List.take_of_length_le (le_of_eq hrand)
  simp only [sqlite3Codec, emodeOf, codecPage1Header, codec_cipher, HDR_SZ]
  norm_num
  rw [hrtake]
  have hinput : List.take (sqlite3BtreeGetPageSize ctx.pBt - 24) (List.drop 24 pData) =
      List.drop 24 pData :=
    List.take_of_length_le (by rw [List.length_drop]; omega)
  rw [hinput]
  have hbuf0 : writeAt ctx.buffer 0 (List.take 24 pData) =
      List.take 24 pData ++ List.drop 24 ctx.buffer := by
    unfold writeAt
    rw [h24]
    simp
  rw [hbuf0]
  have hbuf1 : writeAt (List.take 24 pData ++ List.drop 24 ctx.buffer) 0 ctx.rand =
      ctx.rand ++ (List.take 8 (List.drop 16 pData) ++ List.drop 24 ctx.buffer) := by
    unfold writeAt
    rw [hrand]
    simp only [List.take_zero, List.nil_append, Nat.zero_add]
    rw [List.drop_append_of_le_length (by omega)]
    rw [List.drop_take]
  rw [hbuf1]
  have hcolen : (EVP_Cipher 1 ctx.key (codec_page_hash 1 ctx.rand) (List.drop 24 pData)).length =
      sqlite3BtreeGetPageSize ctx.pBt - 24 := by
    rw [EVP_Cipher_length, List.length_drop]
    omega
  have hmid : (List.take 8 (List.drop 16 pData)).length = 8 := by
    rw [List.length_take, List.length_drop]
    omega
  have h1 : (ctx.rand ++ List.take 8 (List.drop 16 pData)).length = 24 := by
    rw [List.length_append, hrand, hmid]
  unfold writeAt
  rw [← List.append_assoc]
  rw [hcolen]
  have h2 : List.take 24 ((ctx.rand ++ List.take 8 (List.drop 16 pData)) ++ List.drop 24 ctx.buffer) =
      ctx.rand ++ List.take 8 (List.drop 16 pData) := by
    rw [List.take_append_of_le_length (le_of_eq h1.symm)]
    exact List.take_of_length_le (le_of_eq h1)
  have h3 : List.drop (24 + (sqlite3BtreeGetPageSize ctx.pBt - 24))
      ((ctx.rand ++ List.take 8 (List.drop 16 pData)) ++ List.drop 24 ctx.buffer) = [] := by
    apply List.drop_eq_nil_of_le
    rw [List.length_append, h1, List.length_drop]
    omega
  rw [h2, h3, List.append_nil, List.append_assoc]

/-- C1 counterexample: decrypting a concrete page 1 whose on-disk
bytes 0-15 differ from the fixed file header yields a result whose
first 24 bytes are not the on-disk 24-byte header region verbatim
(bytes 0-15 have been replaced by the fixed file header). -/
theorem sqlite3Codec_page1_decrypt_cex :
    (sqlite3Codec ctxA pageA 1 0).pData.take HDR_SZ ≠ pageA.take HDR_SZ := by decide

/-- C1 (amended): on a page-1 decrypt the codec extracts bytes 0-15 of
the input into `ctx.rand`, builds the scratch buffer as the fixed file
header, then bytes 16-23 of the input verbatim, then the decryption of
bytes 24..page_size under `derive_iv(ctx.salt, 1)` and the key (with
the freshly extracted salt), and copies that scratch content back into
the caller's buffer, which it returns. -/
theorem sqlite3Codec_page1_decrypt (ctx : codec_ctx) (pData : Bytes)
    (hbuf : ctx.buffer.length = sqlite3BtreeGetPageSize ctx.pBt)
    (hlen : pData.length = sqlite3BtreeGetPageSize ctx.pBt)
    (hpg : HDR_SZ ≤ sqlite3BtreeGetPageSize ctx.pBt) :
    (sqlite3Codec ctx pData 1 0).ctx.rand = pData.take 16 ∧
    (sqlite3Codec ctx pData 1 0).ctx.buffer =
      SQLITE_FILE_HEADER ++ (pData.drop 16).take 8 ++
        EVP_Cipher 0 ctx.key (codec_page_hash 1 (pData.take 16)) (pData.drop 24) ∧
    (sqlite3Codec ctx pData 1 0).pData = (sqlite3Codec ctx pData 1 0).ctx.buffer ∧
    (sqlite3Codec ctx pData 1 0).ret = RetBuf.caller := by
  have hB := page1_decrypt_buffer ctx pData hbuf hlen hpg
  have hpg24 : 24 ≤ sqlite3BtreeGetPageSize ctx.pBt := hpg
  have hBlen : (sqlite3Codec ctx pData 1 0).ctx.buffer.length = sqlite3BtreeGetPageSize ctx.pBt := by
    rw [hB]
    simp only [List.length_append, SFH_length, List.length_take, List.length_drop,
      EVP_Cipher_length]
    omega
  obtain ⟨hret, hpd⟩ := sqlite3Codec_decrypt_parts ctx pData 1 0 rfl
  refine ⟨?_, hB, ?_, hret⟩
  · simp [sqlite3Codec, emodeOf, codecPage1Header]
  · rw [hpd, List.take_of_length_le (le_of_eq hBlen)]
    unfold writeAt
    simp only [List.take_zero, List.nil_append, Nat.zero_add]
    rw [List.drop_eq_nil_of_le (by omega), List.append_nil]

/-- C1 witness: the amended page-1 decrypt decomposition at a concrete
context and page. -/
theorem sqlite3Codec_page1_decrypt_witness :
    (sqlite3Codec ctxA pageA 1 0).ctx.rand = pageA.take 16 ∧
    (sqlite3Codec ctxA pageA 1 0).ctx.buffer =
      SQLITE_FILE_HEADER ++ (pageA.drop 16).take 8 ++
        EVP_Cipher 0 ctxA.key (codec_page_hash 1 (pageA.take 16)) (pageA.drop 24) ∧
    (sqlite3Codec ctxA pageA 1 0).pData = (sqlite3Codec ctxA pageA 1 0).ctx.buffer ∧
    (sqlite3Codec ctxA pageA 1 0).ret = RetBuf.caller :=
  sqlite3Codec_page1_decrypt ctxA pageA (by decide) (by decide) (by decide)

/-- C2 counterexample: on page-1 encrypt, scratch bytes 16-23 are not
a fixed header value: two concrete input pages that differ at byte 16
produce scratch buffers that differ in the 16-23 region, so the codec
does not write fixed header bytes there. -/
theorem sqlite3Codec_page1_encrypt_cex :
    ((sqlite3Codec ctxA pageA 1 6).ctx.buffer.drop 16).take 8 ≠
      ((sqlite3Codec ctxA pageB 1 6).ctx.buffer.drop 16).take 8 := by decide

/-- C2 (amended): on a page-1 encrypt the codec builds the scratch
buffer as `ctx.salt`, then bytes 16-23 of the input page copied
verbatim (not a fixed constant), then the encryption of bytes
24..page_size under `derive_iv(ctx.salt, 1)` and the key; the salt and
the caller's buffer are unchanged and the scratch buffer is
returned. -/
theorem sqlite3Codec_page1_encrypt (ctx : codec_ctx) (pData : Bytes)
    (hbuf : ctx.buffer.length = sqlite3BtreeGetPageSize ctx.pBt)
    (hlen : pData.length = sqlite3BtreeGetPageSize ctx.pBt)
    (hrand : ctx.rand.length = 16)
    (hpg : HDR_SZ ≤ sqlite3BtreeGetPageSize ctx.pBt) :
    (sqlite3Codec ctx pData 1 6).ctx.buffer =
      ctx.rand ++ (pData.drop 16).take 8 ++
        EVP_Cipher 1 ctx.key (codec_page_hash 1 ctx.rand) (pData.drop 24) ∧
    (sqlite3Codec ctx pData 1 6).ctx.rand = ctx.rand ∧
    (sqlite3Codec ctx pData 1 6).pData = pData ∧
    (sqlite3Codec ctx pData 1 6).ret = RetBuf.scratch := by
  have hB := page1_encrypt_buffer ctx pData hbuf hlen hrand hpg
  obtain ⟨hret, hpd⟩ := sqlite3Codec_encrypt_parts ctx pData 1 6 rfl
  refine ⟨hB, ?_, hpd, hret⟩
  simp [sqlite3Codec, emodeOf, codecPage1Header]

/-- C2 witness: the amended page-1 encrypt decomposition at a concrete
context and page. -/
theorem sqlite3Codec_page1_encrypt_witness :
    (sqlite3Codec ctxA pageA 1 6).ctx.buffer =
      ctxA.rand ++ (pageA.drop 16).take 8 ++
        EVP_Cipher 1 ctxA.key (codec_page_hash 1 ctxA.rand) (pageA.drop 24) ∧
    (sqlite3Codec ctxA pageA 1 6).ctx.rand = ctxA.rand ∧
    (sqlite3Codec ctxA pageA 1 6).pData = pageA ∧
    (sqlite3Codec ctxA pageA 1 6).ret = RetBuf.scratch :=
  sqlite3Codec_page1_encrypt ctxA pageA (by decide) (by decide) (by decide) (by decide)

/-- C6 counterexample: a blob-literal credential with 65 hex digits
(an odd count, not equal to `2 * key_length`) is accepted by attach,
because the source only checks `(n / 2) == key_sz` with integer
division. -/
theorem sqlite3CodecAttach_hex_cex :
    ((sqlite3CodecAttach entA dbA 0 hexKey65 68).toOption.isSome = true) ∧
    68 - 3 ≠ 2 * EVP_CIPHER_key_length := by decide

/-- C6 (amended): for a blob-literal credential, attach succeeds
exactly when `⌊digit_count / 2⌋ = key_length` — so both
`2 * key_length` and `2 * key_length + 1` digits are accepted — and
fails with `InvalidKeyFormat` otherwise; on success the decoded key
has `⌊digit_count / 2⌋ = key_length` bytes. -/
theorem sqlite3CodecAttach_hex (entropy : Bytes) (db : sqlite3) (nDb nKey : Nat)
    (zKey : Bytes) (pDb : Db) (pBt : Btree)
    (hslot : db.aDb.get? nDb = some pDb) (hbt : pDb.pBt = some pBt)
    (hnz : ¬(nKey = 0 ∨ zKey = [])) (hhex : isHexKeyMarker zKey = true) :
    sqlite3CodecAttach entropy db nDb zKey nKey =
      (if (nKey - 3) / 2 = EVP_CIPHER_key_length then
        Except.ok (setCodec db nDb pDb pBt
          (sqlite3HexToBlob (zKey.drop 2) (nKey - 3)) EVP_CIPHER_key_length entropy)
      else Except.error CodecError.InvalidKeyFormat) ∧
    (sqlite3HexToBlob (zKey.drop 2) (nKey - 3)).length = (nKey - 3) / 2 := by
  have hslot2 : db.aDb[nDb]? = some pDb := by
    rw [← List.get?_eq_getElem?]
    exact hslot
  constructor
  · unfold sqlite3CodecAttach
    simp [hslot2, hbt, hnz, hhex]
  · simp [sqlite3HexToBlob]

/-- C6 witness: the amended hex-credential contract at a concrete
connection and a 64-digit credential. -/
theorem sqlite3CodecAttach_hex_witness :
    (sqlite3CodecAttach entA dbA 0 hexKey64 67 =
      (if (67 - 3) / 2 = EVP_CIPHER_key_length then
        Except.ok (setCodec dbA 0 dbSlotA btA
          (sqlite3HexToBlob (hexKey64.drop 2) (67 - 3)) EVP_CIPHER_key_length entA)
      else Except.error CodecError.InvalidKeyFormat)) ∧
    (sqlite3HexToBlob (hexKey64.drop 2) (67 - 3)).length = (67 - 3) / 2 :=
  sqlite3CodecAttach_hex entA dbA 0 67 hexKey64 dbSlotA btA rfl rfl (by decide) (by decide)

/-- C7 counterexample: attaching a second time to a connection whose
slot already holds a codec context does not fail (so in particular it
does not fail with `AlreadyAttached`), and it changes the connection —
the existing context is replaced. -/
theorem sqlite3CodecAttach_twice_cex :
    ((sqlite3CodecAttach entA dbB 0 hexKey64 67).toOption.isSome = true) ∧
    (sqlite3CodecAttach entA dbB 0 hexKey64 67).toOption ≠ some dbB := by decide

/-- C7 (amended): a second attach to an already-attached handle does
not fail: the attach path never inspects the current codec slot and
unconditionally installs a freshly built context, replacing (and
leaking) the existing one. -/
theorem sqlite3CodecAttach_replaces (entropy : Bytes) (db : sqlite3) (nDb nKey : Nat)
    (zKey : Bytes) (pDb : Db) (pBt : Btree) (oldCtx : codec_ctx)
    (hslot : db.aDb.get? nDb = some pDb) (hbt : pDb.pBt = some pBt)
    (hprev : pDb.pagerCodec = some oldCtx)
    (hnz : ¬(nKey = 0 ∨ zKey = [])) (hhex : isHexKeyMarker zKey = true)
    (hklen : (nKey - 3) / 2 = EVP_CIPHER_key_length) :
    sqlite3CodecAttach entropy db nDb zKey nKey =
      Except.ok (setCodec db nDb pDb pBt
        (sqlite3HexToBlob (zKey.drop 2) (nKey - 3)) EVP_CIPHER_key_length entropy) := by
  have hslot2 : db.aDb[nDb]? = some pDb := by
    rw [← List.get?_eq_getElem?]
    exact hslot
  unfold sqlite3CodecAttach
  simp [hslot2, hbt, hnz, hhex, hklen]

/-- C7 witness: the replacement behavior at a concrete connection
whose slot already has the context `ctxA` attached. -/
theorem sqlite3CodecAttach_replaces_witness :
    sqlite3CodecAttach entA dbB 0 hexKey64 67 =
      Except.ok (setCodec dbB 0 dbSlotB btA
        (sqlite3HexToBlob (hexKey64.drop 2) (67 - 3)) EVP_CIPHER_key_length entA) :=
  sqlite3CodecAttach_replaces entA dbB 0 67 hexKey64 dbSlotB btA ctxA rfl rfl rfl
    (by decide) (by decide) (by decide)

theorem list_set_self {α : Type} (l : List α) (n : Nat) (a : α)
    (h : l.get? n = some a) : l.set n a = l := by
  induction l generalizing n with
  | nil => cases h
  | cons x xs ih =>
    cases n with
    | zero =>
      simp only [List.get?] at h
      cases h
      rfl
    | succ m =>
      simp only [List.get?] at h
      simp only [List.set]
      rw [ih m h]

theorem map_pBt_setCodec (db : sqlite3) (nDb : Nat) (pDb : Db) (pBt : Btree)
    (key : Bytes) (ksz : Nat) (ent : Bytes)
    (h : db.aDb.get? nDb = some pDb) :
    (setCodec db nDb pDb pBt key ksz ent).aDb.map Db.pBt = db.aDb.map Db.pBt := by
  show (db.aDb.set nDb _).map Db.pBt = db.aDb.map Db.pBt
  rw [List.map_set]
  apply list_set_self
  rw [List.get?_eq_getElem?, List.getElem?_map, ← List.get?_eq_getElem?, h]
  rfl

theorem sqlite3CodecAttach_pBt (e : Bytes) (d : sqlite3) (i : Nat) (z : Bytes) (n : Nat)
    (d2 : sqlite3) (h : sqlite3CodecAttach e d i z n = Except.ok d2) :
    d2.aDb.map Db.pBt = d.aDb.map Db.pBt := by
  unfold sqlite3CodecAttach at h
  cases hslot : d.aDb.get? i with
  | none =>
    rw [hslot] at h
    cases h
    rfl
  | some pDb =>
    simp only [hslot] at h
    cases hbt : pDb.pBt with
    | none =>
      simp only [hbt] at h
      cases h
      rfl
    | some pBt =>
      simp only [hbt] at h
      by_cases hnz : n = 0 ∨ z = []
      · rw [if_pos hnz] at h
        cases h
        rfl
      · rw [if_neg hnz] at h
        by_cases hhex : isHexKeyMarker z
        · rw [if_pos hhex] at h
          by_cases hk : (n - 3) / 2 = EVP_CIPHER_key_length
          · rw [if_pos hk] at h
            cases h
            exact map_pBt_setCodec d i pDb pBt _ _ _ hslot
          · rw [if_neg hk] at h
            cases h
        · rw [if_neg hhex] at h
          by_cases hk : (codec_passphrase_hash (z.take n)).length = EVP_CIPHER_key_length
          · rw [if_pos hk] at h
            cases h
            exact map_pBt_setCodec d i pDb pBt _ _ _ hslot
          · rw [if_neg hk] at h
            cases h

theorem keyStep_pBt (e z : Bytes) (n : Nat) (d : sqlite3) (i : Nat) :
    (keyStep e z n d i).aDb.map Db.pBt = d.aDb.map Db.pBt := by
  unfold keyStep
  cases hr : sqlite3CodecAttach e d i z n with
  | ok d2 => exact sqlite3CodecAttach_pBt e d i z n d2 hr
  | error _ => rfl

theorem foldl_keyStep_pBt (e z : Bytes) (n : Nat) (l : List Nat) :
    ∀ d : sqlite3, ((l.foldl (keyStep e z n) d).aDb.map Db.pBt) = d.aDb.map Db.pBt := by
  induction l with
  | nil => intro d; rfl
  | cons x xs ih =>
    intro d
    rw [List.foldl_cons, ih, keyStep_pBt]

/-- C9: the rekey entry point only re-keys the in-memory contexts —
it is literally the key-set entry point applied to every database
slot — and it never touches the underlying btrees, so every on-disk
page is left unchanged. -/
theorem sqlite3_rekey_spec (entropy : Bytes) (db : sqlite3) (zKey : Bytes) (nKey : Nat) :
    sqlite3_rekey entropy db zKey nKey = sqlite3_key entropy db zKey nKey ∧
    (sqlite3_rekey entropy db zKey nKey).aDb.map Db.pBt = db.aDb.map Db.pBt := by
  refine ⟨rfl, ?_⟩
  unfold sqlite3_rekey sqlite3_key
  exact foldl_keyStep_pBt entropy zKey nKey (List.range db.aDb.length) db
